import Mathlib

/-
Verification of the basis_treas_swap pipeline.

The repository computes the Treasury-Swap basis: it merges Bloomberg Treasury
yields and swap rates on a shared date index, computes per-tenor basis-point
spreads, forward-fills gaps, exports a standardized long-format table, and
renders charts and a LaTeX mean table.

This file gives a shallow embedding of the tabular transforms:
  - a DataFrame is a date index together with named columns of optional
    rational values (a missing value, NaN in pandas, is none);
  - each pure source function becomes a Lean function on this model;
  - file and cache state is passed explicitly where the source touches disk.
Numeric cells are rationals: the source arithmetic is elementwise subtraction
and scaling, which is exact in this model.
-/

namespace BasisTreasSwap

/-- Calendar date (year, month, day), the row-index type of every table. -/
structure Date where
  y : Int
  m : Int
  d : Int
deriving DecidableEq, Repr

instance : Inhabited Date := ⟨⟨0, 0, 0⟩⟩

/-- Lexicographic less-or-equal on dates, the order used for date slicing. -/
def Date.leB (a b : Date) : Bool :=
  decide (a.y < b.y) ||
    (decide (a.y = b.y) &&
      (decide (a.m < b.m) || (decide (a.m = b.m) && decide (a.d ≤ b.d))))

/-- A pandas DataFrame: a date index and named columns of optional rationals.
Every column is intended to have the same length as the index. -/
structure DF where
  index : List Date
  cols : List (String × List (Option ℚ))
deriving DecidableEq

instance : Inhabited DF := ⟨⟨[], []⟩⟩

/-- Column lookup by label, none when the label is absent. -/
def DF.getCol (df : DF) (n : String) : Option (List (Option ℚ)) :=
  (df.cols.find? (fun c => decide (c.1 = n))).map (·.2)

/-- Membership test for a column label, as in the expression n in df.columns. -/
def DF.hasCol (df : DF) (n : String) : Bool :=
  df.cols.any (fun c => decide (c.1 = n))

/-- The list of column labels, in order. -/
def DF.colNames (df : DF) : List String := df.cols.map (·.1)

/-- Column assignment df[n] = vs: overwrite in place when the label exists,
append at the end otherwise, as pandas does. -/
def DF.setCol (df : DF) (n : String) (vs : List (Option ℚ)) : DF :=
  if df.hasCol n then
    ⟨df.index, df.cols.map (fun c => if c.1 = n then (n, vs) else c)⟩
  else
    ⟨df.index, df.cols ++ [(n, vs)]⟩

/-- Value of a column at a given date, via the position of the date in the
index; none when the date is absent. -/
def colAt (index : List Date) (vals : List (Option ℚ)) (d : Date) : Option ℚ :=
  match (index.zip vals).find? (fun p => decide (p.1 = d)) with
  | some p => p.2
  | none => none

/-- pandas merge on the index with how set to inner: the resulting index is
the left index restricted to dates also present on the right (left order
kept), and, as pandas does, a label present on both sides gets the suffix
_x on the left copy and _y on the right copy. -/
def mergeInner (l r : DF) : DF :=
  let idx := l.index.filter (fun d => decide (d ∈ r.index))
  let lcols := l.cols.map (fun c =>
    (if r.hasCol c.1 then c.1 ++ "_x" else c.1,
      idx.map (fun d => colAt l.index c.2 d)))
  let rcols := r.cols.map (fun c =>
    (if l.hasCol c.1 then c.1 ++ "_y" else c.1,
      idx.map (fun d => colAt r.index c.2 d)))
  ⟨idx, lcols ++ rcols⟩

/-- Row filter by a predicate on the date index, keeping order. -/
def filterRows (df : DF) (p : Date → Bool) : DF :=
  ⟨df.index.filter p,
    df.cols.map (fun c =>
      (c.1, ((df.index.zip c.2).filter (fun x => p x.1)).map (·.2)))⟩

/-- Column selection df[ns] for labels known to be present; absent labels are
simply not produced (all call sites select labels just created or filtered
to be present). -/
def selectCols (df : DF) (ns : List String) : DF :=
  ⟨df.index, ns.filterMap (fun n => (df.getCol n).map (fun vs => (n, vs)))⟩

/- ---------------------------------------------------------------------
String helpers mirroring the Python string operations used by the source.
--------------------------------------------------------------------- -/

/-- Whether the character list p is a leading segment of s. -/
def leadSeg : List Char → List Char → Bool
  | [], _ => true
  | _ :: _, [] => false
  | a :: p, b :: s => decide (a = b) && leadSeg p s

/-- Whether the character list p occurs contiguously anywhere in s. -/
def hasRun (p : List Char) : List Char → Bool
  | [] => p.isEmpty
  | b :: t => leadSeg p (b :: t) || hasRun p t

/-- Python substring containment, pat in s. -/
def strHasSub (s pat : String) : Bool := hasRun pat.data s.data

/-- Python s.split()[0] for space-separated labels: drop leading spaces, take
the first run of non-space characters. -/
def firstTok (s : String) : String :=
  String.mk (((s.data.dropWhile (fun c => decide (c = ' '))).takeWhile
    (fun c => decide (c ≠ ' '))))

/-- Dictionary lookup in an association list of strings. -/
def lookupStr (m : List (String × String)) (k : String) : Option String :=
  (m.find? (fun p => decide (p.1 = k))).map (·.2)

/- ---------------------------------------------------------------------
calc_treasury_swap_basis.py
--------------------------------------------------------------------- -/

/-- TREASURY_MAPPING: Bloomberg Treasury tickers to tenor names. -/
def TREASURY_MAPPING : List (String × String) :=
  [("USGG1YR", "1Y"), ("USGG2YR", "2Y"), ("USGG3YR", "3Y"), ("USGG5YR", "5Y"),
   ("USGG10YR", "10Y"), ("USGG20YR", "20Y"), ("USGG30YR", "30Y")]

/-- SWAP_MAPPING: Bloomberg swap tickers to tenor names. -/
def SWAP_MAPPING : List (String × String) :=
  [("USSW1", "1Y"), ("USSW2", "2Y"), ("USSW3", "3Y"), ("USSW5", "5Y"),
   ("USSW10", "10Y"), ("USSW20", "20Y"), ("USSW30", "30Y")]

/-- OUTPUT_COLUMNS: tenor names to basis-point output column labels. -/
def OUTPUT_COLUMNS : List (String × String) :=
  [("1Y", "Arb_Swap_1"), ("2Y", "Arb_Swap_2"), ("3Y", "Arb_Swap_3"),
   ("5Y", "Arb_Swap_5"), ("10Y", "Arb_Swap_10"), ("20Y", "Arb_Swap_20"),
   ("30Y", "Arb_Swap_30")]

/-- OUTPUT_COLUMNS lookup; every caller passes a tenor present in the table. -/
def outputColumn (tenor : String) : String :=
  (lookupStr OUTPUT_COLUMNS tenor).getD ""

/-- The seven fixed tenors iterated by compute_treasury_swap_basis. -/
def tenors : List String := ["1Y", "2Y", "3Y", "5Y", "10Y", "20Y", "30Y"]

/-- One column-label rename of clean_columns inside prepare_data: when the
label contains the substring _PX_LAST and its first whitespace token is a
ticker of the mapping, the label becomes tenor_suffix; otherwise it is kept
unchanged (no column is dropped here). -/
def cleanColName (mapping : List (String × String)) (suffix : String)
    (col : String) : String :=
  if strHasSub col "_PX_LAST" then
    match lookupStr mapping (firstTok col) with
    | some tenor => tenor ++ "_" ++ suffix
    | none => col
  else col

/-- prepare_data: rename both column sets and inner-merge on the date index.
Inputs are modeled as already date-indexed, so the set_index branch taken
when a column literally named index is present is the identity here. -/
def prepareData (treasury_df swap_df : DF) : DF :=
  let t := DF.mk treasury_df.index
    (treasury_df.cols.map (fun c =>
      (cleanColName TREASURY_MAPPING "Treasury" c.1, c.2)))
  let s := DF.mk swap_df.index
    (swap_df.cols.map (fun c =>
      (cleanColName SWAP_MAPPING "Swap" c.1, c.2)))
  mergeInner t s

/-- One basis cell: (treasury - swap) * 100, missing when either side is
missing (NaN propagation of pandas subtraction). -/
def basisCell : Option ℚ → Option ℚ → Option ℚ
  | some t, some s => some ((t - s) * 100)
  | _, _ => none

/-- One iteration of the compute_treasury_swap_basis loop: when both the
tenor_Treasury and tenor_Swap columns exist, assign the output column;
otherwise leave the table unchanged. -/
def basisStep (acc : DF) (tenor : String) : DF :=
  match acc.getCol (tenor ++ "_Treasury"), acc.getCol (tenor ++ "_Swap") with
  | some t, some s =>
    acc.setCol (outputColumn tenor) (List.zipWith basisCell t s)
  | _, _ => acc

/-- compute_treasury_swap_basis: fold the per-tenor step over the 7 tenors. -/
def computeTreasurySwapBasis (df_merged : DF) : DF :=
  tenors.foldl basisStep df_merged

/-- Forward fill of one column with the running last observation. -/
def ffillCol : Option ℚ → List (Option ℚ) → List (Option ℚ)
  | _, [] => []
  | last, none :: xs => last :: ffillCol last xs
  | _, some v :: xs => some v :: ffillCol (some v) xs

/-- df.ffill(): forward fill every column independently. -/
def ffillDF (df : DF) : DF :=
  ⟨df.index, df.cols.map (fun c => (c.1, ffillCol none c.2))⟩

/-- calculate_treasury_swap_basis without the final ffill: prepare, truncate
to the optional end date (inclusive), compute the basis, and extract the
basis columns that are present. -/
def basisBeforeFfill (treasury_df swap_df : DF) (end_date : Option Date) : DF :=
  let m := prepareData treasury_df swap_df
  let m := match end_date with
    | some dt => filterRows m (fun x => Date.leB x dt)
    | none => m
  let m := computeTreasurySwapBasis m
  selectCols m ((OUTPUT_COLUMNS.map (·.2)).filter (fun c => m.hasCol c))

/-- calculate_treasury_swap_basis: the pure core of the calculator, with the
two loaded tables passed in place of the parquet reads. -/
def calculateTreasurySwapBasis (treasury_df swap_df : DF)
    (end_date : Option Date) : DF :=
  ffillDF (basisBeforeFfill treasury_df swap_df end_date)

/- ---------------------------------------------------------------------
calc_swap_spreads.py
--------------------------------------------------------------------- -/

/-- The year list [1, 2, 3, 5, 10, 20, 30] appearing in calc_swap_spreads,
plot_figure and supplementary. -/
def sYears : List Nat := [1, 2, 3, 5, 10, 20, 30]

/-- Treasury yield column label of the legacy data, GT followed by the year
and the word Govt. -/
def gtName (i : Nat) : String := "GT" ++ toString i ++ " Govt"

/-- Swap rate column label of the legacy data. -/
def ussoName (i : Nat) : String := "USSO" ++ toString i ++ " CMPN Curncy"

/-- Spread column label Arb_Swap_i of the legacy calculator. -/
def arbName (i : Nat) : String := "Arb_Swap_" ++ toString i

/-- Scaled swap column label tswap_i_rf of the legacy calculator. -/
def tswapName (i : Nat) : String := "tswap_" ++ toString i ++ "_rf"

/-- One spread cell of calc_swap_spreads: 100 * (- treasury + swap), missing
when either side is missing. -/
def arbCell : Option ℚ → Option ℚ → Option ℚ
  | some g, some u => some (100 * (-g + u))
  | _, _ => none

/-- One scaled swap cell of calc_swap_spreads: swap * 100. -/
def tswapCell : Option ℚ → Option ℚ
  | some u => some (u * 100)
  | none => none

/-- One iteration of the calc_swap_spreads loop for year i: read the GT and
USSO columns (a KeyError on an absent column is modeled as none) and assign
the Arb_Swap_i and tswap_i_rf columns. -/
def swapSpreadStep (acc : DF) (i : Nat) : Option DF := do
  let g ← acc.getCol (gtName i)
  let u ← acc.getCol (ussoName i)
  let acc := acc.setCol (arbName i) (List.zipWith arbCell g u)
  pure (acc.setCol (tswapName i) (u.map tswapCell))

/-- Drop rows whose values are all missing, dropna with how set to all. -/
def dropnaAll (df : DF) : DF :=
  let keepIdx := (List.range df.index.length).filter (fun i =>
    df.cols.any (fun c => (c.2.getD i none).isSome))
  ⟨keepIdx.map (fun i => df.index.getD i default),
    df.cols.map (fun c => (c.1, keepIdx.map (fun i => c.2.getD i none)))⟩

/-- calc_swap_spreads: inner-merge swap onto treasury data, compute the
legacy spreads and scaled swaps for every year (none models the KeyError
raised when a required column is absent), keep only rows whose calendar
year is at least 2000 (the helper Year column of the source is inlined,
being dropped by the following selection), select the spread and scaled
columns, and drop all-missing rows. -/
def calcSwapSpreads (treasury_df swap_df : DF) : Option DF := do
  let merged := mergeInner swap_df treasury_df
  let merged ← sYears.foldlM swapSpreadStep merged
  let merged := filterRows merged (fun dt => decide (2000 ≤ dt.y))
  let merged := selectCols merged (sYears.map arbName ++ sYears.map tswapName)
  pure (dropnaAll merged)

/- ---------------------------------------------------------------------
create_ftsfr_datasets.py
--------------------------------------------------------------------- -/

/-- stack with future_stack, then reset_index and column reorder: one row
(unique_id, ds, y) per (date, column) cell, date-major in index order,
missing cells kept. -/
def stackRows (df : DF) : List (String × Date × Option ℚ) :=
  df.index.enum.flatMap (fun p =>
    df.cols.map (fun c => (c.1, p.2, c.2.getD p.1 none)))

/-- dropna on the stacked rows: keep exactly the rows whose y is present. -/
def dropnaRows (rs : List (String × Date × Option ℚ)) :
    List (String × Date × ℚ) :=
  rs.filterMap (fun r => match r.2.2 with
    | some q => some (r.1, r.2.1, q)
    | none => none)

/-- The (unique_id, ds) part of a stacked row before dropna. -/
def cellKey (r : String × Date × Option ℚ) : String × Date := (r.1, r.2.1)

/-- The (unique_id, ds) part of a long-format row. -/
def rowKey (r : String × Date × ℚ) : String × Date := (r.1, r.2.1)

/-- Code-point key of a string, the order pandas uses to compare strings. -/
def strKey (s : String) : List Nat := s.data.map Char.toNat

/-- Strict lexicographic order on code-point lists. -/
def natsLT : List Nat → List Nat → Bool
  | [], [] => false
  | [], _ :: _ => true
  | _ :: _, [] => false
  | a :: s, b :: t => decide (a < b) || (decide (a = b) && natsLT s t)

/-- Row order of sort_values by unique_id then ds: strictly smaller series
label, or equal label and date less-or-equal. -/
def rowLE (r₁ r₂ : String × Date × ℚ) : Bool :=
  natsLT (strKey r₁.1) (strKey r₂.1) ||
    (decide (strKey r₁.1 = strKey r₂.1) && Date.leB r₁.2.1 r₂.2.1)

/-- The row order as a relation, for the sorting lemmas. -/
def rowRel (r₁ r₂ : String × Date × ℚ) : Prop := rowLE r₁ r₂ = true

instance : DecidableRel rowRel := fun a b =>
  inferInstanceAs (Decidable (rowLE a b = true))

/-- The pure long-format export of create_ftsfr_datasets.main, lines that
stack the wide table, drop missing values, sort by (unique_id, ds) and
reset to dense row numbers (the rows of the returned list are numbered by
position). The sort is modeled by insertion sort, which agrees with
sort_values wherever the keys are pairwise distinct. -/
def ftsfrExport (df_all : DF) : List (String × Date × ℚ) :=
  List.insertionSort rowRel (dropnaRows (stackRows df_all))

/-- What the exporter can read back at the cached output path. -/
structure CachedTable where
  colNames : List String
  nrows : Nat
deriving DecidableEq

/-- State of the previously exported file: absent, present but unreadable
(read_parquet raises), or readable with a column list and row count. -/
inductive CacheFile where
  | missing
  | unreadable
  | readable (t : CachedTable)
deriving DecidableEq

/-- Python set equality of column label lists. -/
def colSetEq (xs ys : List String) : Bool :=
  xs.all (fun x => decide (x ∈ ys)) && ys.all (fun y => decide (y ∈ xs))

/-- The short-circuit test of create_ftsfr_datasets.main: the file exists,
reads back, its column set is exactly unique_id, ds, y, and it has at least
one row. An unreadable file fails the test (the exception is swallowed). -/
def validCache : CacheFile → Bool
  | .readable t =>
    colSetEq t.colNames ["unique_id", "ds", "y"] && decide (0 < t.nrows)
  | _ => false

/-- Outcome of one run of create_ftsfr_datasets.main. -/
inductive ExportOutcome where
  | reusedExisting
  | skippedNoData
  | written (rows : List (String × Date × ℚ))
deriving DecidableEq

/-- create_ftsfr_datasets.main with the cache-file state and the computed
wide table passed explicitly: reuse a valid cached file, skip when the wide
table is empty, and otherwise write the long-format export. -/
def ftsfrMain (cache : CacheFile) (df_all : DF) : ExportOutcome :=
  if validCache cache then .reusedExisting
  else if decide (df_all.index = []) || decide (df_all.cols = []) then
    .skippedNoData
  else .written (ftsfrExport df_all)

/- ---------------------------------------------------------------------
plot_figure.py and supplementary.py
--------------------------------------------------------------------- -/

/-- The date-window slicing of the plotting functions: both bounds when both
are given, the start bound alone when only it is given, and no slicing
otherwise (in particular an end date without a start date is ignored, as in
the source conditionals). -/
def sliceSeries (xs : List (Date × Option ℚ)) (startD endD : Option Date) :
    List (Date × Option ℚ) :=
  match startD, endD with
  | some s0, some e0 =>
    xs.filter (fun p => Date.leB s0 p.1 && Date.leB p.1 e0)
  | some s0, none => xs.filter (fun p => Date.leB s0 p.1)
  | none, _ => xs

/-- plot_figure: one trace per tenor year whose Arb_Swap column is present,
missing years skipped; each trace is the windowed series with missing
values dropped. -/
def plotFigureTraces (arb_df : DF) (startD endD : Option Date) :
    List (Nat × List (Date × ℚ)) :=
  sYears.filterMap (fun year =>
    match arb_df.getCol ("Arb_Swap_" ++ toString year) with
    | some vs => some (year,
        (sliceSeries (arb_df.index.zip vs) startD endD).filterMap
          (fun p => p.2.map (fun q => (p.1, q))))
    | none => none)

/-- One plotted series of plot_supplementary: window, dropna, keep strictly
positive values only; each kept point carries the argument 100 * q handed
to np.log (the logarithm itself is float rendering). -/
def logTrace (index : List Date) (vs : List (Option ℚ))
    (startD endD : Option Date) : List (Date × ℚ) :=
  (sliceSeries (index.zip vs) startD endD).filterMap (fun p =>
    match p.2 with
    | some q => if 0 < q then some (p.1, 100 * q) else none
    | none => none)

/-- plot_supplementary: one chart per tenor year with both the GT and USSO
columns present, missing years skipped; each chart holds the Treasury and
the swap log-series. -/
def plotSupplementaryCharts (replication_df : DF) (startD endD : Option Date) :
    List (Nat × List (Date × ℚ) × List (Date × ℚ)) :=
  sYears.filterMap (fun year =>
    match replication_df.getCol (gtName year),
        replication_df.getCol (ussoName year) with
    | some trea, some swap =>
      some (year, logTrace replication_df.index trea startD endD,
        logTrace replication_df.index swap startD endD)
    | _, _ => none)

/-- pandas column mean with missing values skipped: none when the column has
no observation at all. -/
def colMean (vs : List (Option ℚ)) : Option ℚ :=
  let obs := vs.filterMap id
  if obs.length = 0 then none else some (obs.sum / obs.length)

/-- The column selection calc_df of sup_table restricted to the seven
Arb_Swap columns: none models the KeyError raised when any is absent. -/
def selectArbCols (calc_df : DF) : List Nat → Option (List (Nat × List (Option ℚ)))
  | [] => some []
  | y :: ys => do
    let vs ← calc_df.getCol (arbName y)
    let rest ← selectArbCols calc_df ys
    pure ((y, vs) :: rest)

/-- sup_table: select the seven Arb_Swap columns (KeyError, modeled as none,
when one is absent), rename them to Arb Swap i, and return the per-column
means; writing the LaTeX file is I/O outside this model. -/
def supTable (calc_df : DF) : Option (List (String × Option ℚ)) :=
  (selectArbCols calc_df sYears).map (fun cols =>
    cols.map (fun c => ("Arb Swap " ++ toString c.1, colMean c.2)))

/- ---------------------------------------------------------------------
Concrete example tables used by the closed theorems below.
--------------------------------------------------------------------- -/

/-- Example trading date in 2024. -/
def d2024 : Date := ⟨2024, 1, 2⟩

/-- A second example trading date. -/
def d2024b : Date := ⟨2024, 1, 3⟩

/-- Example pre-2000 date. -/
def d1999 : Date := ⟨1999, 3, 4⟩

/-- Legacy-format Treasury table: every GT column holds 5 percent on both
dates. -/
def exLegacyT : DF :=
  ⟨[d1999, d2024], sYears.map (fun i => (gtName i, [some 5, some 5]))⟩

/-- Legacy-format swap table: every USSO column holds 4 percent on both
dates. -/
def exLegacyS : DF :=
  ⟨[d1999, d2024], sYears.map (fun i => (ussoName i, [some 4, some 4]))⟩

/-- The value calc_swap_spreads actually produces on the example tables. -/
def exLegacyOut : DF := (calcSwapSpreads exLegacyT exLegacyS).getD default

/-- Wide table whose date index holds the same date twice. -/
def exDupDates : DF := ⟨[d2024, d2024], [("A", [some 1, some 2])]⟩

/-- Well-formed small wide basis table. -/
def exWide : DF :=
  ⟨[d2024, d2024b], [("Arb_Swap_10", [some 7, none]), ("Arb_Swap_1", [some 3, some 4])]⟩

/-- Treasury table with one column matched by no lookup entry. -/
def exFooT : DF := ⟨[d2024], [("FOO", [some 1])]⟩

/-- Swap table with no columns, sharing the example date. -/
def exFooS : DF := ⟨[d2024], []⟩

/-- Cleaned-format Treasury table with the 10Y and 1Y columns. -/
def exPrepT : DF :=
  ⟨[d2024, d2024b], [("10Y_Treasury", [some 5, none]), ("1Y_Treasury", [some 3, some 3])]⟩

/-- Cleaned-format swap table missing the 10Y column. -/
def exPrepSNo10 : DF := ⟨[d2024, d2024b], [("1Y_Swap", [some 2, some 2])]⟩

/-- Cleaned-format swap table with the 10Y and 1Y columns. -/
def exPrepS : DF :=
  ⟨[d2024, d2024b], [("10Y_Swap", [some 4, none]), ("1Y_Swap", [some 2, some 2])]⟩

/-- Vendor-format Treasury table as pulled from Bloomberg. -/
def exVendorT : DF := ⟨[d2024], [("USGG10YR Index_PX_LAST", [some 5])]⟩

/-- Vendor-format swap table as pulled from Bloomberg. -/
def exVendorS : DF := ⟨[d2024], [("USSW10 Curncy_PX_LAST", [some 4])]⟩

/-- Spread table carrying only six of the seven Arb_Swap columns. -/
def exNo30 : DF :=
  ⟨[d2024],
    [("Arb_Swap_1", [some 1]), ("Arb_Swap_2", [some 1]), ("Arb_Swap_3", [some 1]),
     ("Arb_Swap_5", [some 1]), ("Arb_Swap_10", [some 1]), ("Arb_Swap_20", [some 1])]⟩

/-- Spread table carrying all seven Arb_Swap columns. -/
def exFullArb : DF :=
  ⟨[d2024],
    [("Arb_Swap_1", [some 1]), ("Arb_Swap_2", [some 1]), ("Arb_Swap_3", [some 1]),
     ("Arb_Swap_5", [some 1]), ("Arb_Swap_10", [some 1]), ("Arb_Swap_20", [some 1]),
     ("Arb_Swap_30", [some 1])]⟩

/-- Replication table with a GT and a USSO column, the GT series holding a
zero rate on the second date. -/
def exRepl : DF :=
  ⟨[d2024, d2024b], [("GT10 Govt", [some 2, some 0]), ("USSO10 CMPN Curncy", [some 3, none])]⟩

/-- Merged table carrying the 1Y pair but missing the 10Y swap column. -/
def exC4df : DF :=
  ⟨[d2024],
    [("10Y_Treasury", [some 5]), ("1Y_Treasury", [some 3]), ("1Y_Swap", [some 2])]⟩

/-- The merged table built by calc_swap_spreads on the example tables. -/
def exLegacyMerged : DF := mergeInner exLegacyS exLegacyT

/- ---------------------------------------------------------------------
Helper lemmas: column access and assignment.
--------------------------------------------------------------------- -/

lemma hasCol_eq_isSome (df : DF) (n : String) :
    df.hasCol n = (df.getCol n).isSome := by
  obtain ⟨idx, cols⟩ := df
  induction cols with
  | nil => rfl
  | cons c rest ih =>
    simp only [DF.hasCol, DF.getCol, List.any_cons, List.find?_cons] at *
    by_cases h : c.1 = n
    · simp [h]
    · simpa [h] using ih

lemma hasCol_iff_mem_colNames (df : DF) (n : String) :
    df.hasCol n = true ↔ n ∈ df.colNames := by
  obtain ⟨idx, cols⟩ := df
  simp [DF.hasCol, DF.colNames, List.any_eq_true]

/-- The list of columns after an in-place update: the first matching label
is found as the updated pair whenever any label matches. -/
lemma find?_update_self (cols : List (String × List (Option ℚ)))
    (n : String) (vs : List (Option ℚ)) :
    ((cols.map (fun c => if c.1 = n then (n, vs) else c)).find?
        (fun c => decide (c.1 = n))) =
      if (cols.any fun c => decide (c.1 = n)) = true then some (n, vs)
      else none := by
  induction cols with
  | nil => rfl
  | cons c rest ih =>
    by_cases h : c.1 = n
    · simp only [List.map_cons, if_pos h, List.any_cons]
      rw [List.find?_cons_of_pos _ (by simp)]
      simp [h]
    · simp only [List.map_cons, if_neg h, List.any_cons]
      rw [List.find?_cons_of_neg _ (by simp [h])]
      simp only [decide_eq_true_eq, h, decide_False, Bool.false_or]
      exact ih

/-- An in-place update at a different label leaves find? unchanged. -/
lemma find?_update_ne (cols : List (String × List (Option ℚ)))
    (n m : String) (vs : List (Option ℚ)) (h : m ≠ n) :
    ((cols.map (fun c => if c.1 = n then (n, vs) else c)).find?
        (fun c => decide (c.1 = m))) =
      cols.find? (fun c => decide (c.1 = m)) := by
  induction cols with
  | nil => rfl
  | cons c rest ih =>
    by_cases h1 : c.1 = n
    · have h2 : ¬(c.1 = m) := by rw [h1]; exact fun e => h e.symm
      simp only [List.map_cons, if_pos h1]
      rw [List.find?_cons_of_neg _
          (by simp only [decide_eq_true_eq]; exact fun e => h e.symm),
        List.find?_cons_of_neg _ (by simp [h2])]
      exact ih
    · by_cases h3 : c.1 = m
      · simp only [List.map_cons, if_neg h1]
        rw [List.find?_cons_of_pos _ (by simp [h3]),
          List.find?_cons_of_pos _ (by simp [h3])]
      · simp only [List.map_cons, if_neg h1]
        rw [List.find?_cons_of_neg _ (by simp [h3]),
          List.find?_cons_of_neg _ (by simp [h3])]
        exact ih

/-- Appending a fresh column makes it findable when no label matched. -/
lemma find?_append_self (cols : List (String × List (Option ℚ)))
    (n : String) (vs : List (Option ℚ))
    (h : (cols.any fun c => decide (c.1 = n)) = false) :
    (cols ++ [(n, vs)]).find? (fun c => decide (c.1 = n)) = some (n, vs) := by
  induction cols with
  | nil =>
    simp only [List.nil_append]
    exact List.find?_cons_of_pos _ (by simp)
  | cons c rest ih =>
    simp only [List.any_cons, Bool.or_eq_false_iff, decide_eq_false_iff_not] at h
    simp only [List.cons_append]
    rw [List.find?_cons_of_neg _ (by simp [h.1])]
    exact ih (by simpa using h.2)

/-- Appending a column with a different label leaves find? unchanged. -/
lemma find?_append_ne (cols : List (String × List (Option ℚ)))
    (n m : String) (vs : List (Option ℚ)) (h : m ≠ n) :
    (cols ++ [(n, vs)]).find? (fun c => decide (c.1 = m)) =
      cols.find? (fun c => decide (c.1 = m)) := by
  induction cols with
  | nil =>
    simp only [List.nil_append]
    rw [List.find?_cons_of_neg _
        (by simp only [decide_eq_true_eq]; exact fun e => h e.symm)]
  | cons c rest ih =>
    by_cases h3 : c.1 = m
    · simp only [List.cons_append]
      rw [List.find?_cons_of_pos _ (by simp [h3]),
        List.find?_cons_of_pos _ (by simp [h3])]
    · simp only [List.cons_append]
      rw [List.find?_cons_of_neg _ (by simp [h3]),
        List.find?_cons_of_neg _ (by simp [h3])]
      exact ih

lemma getCol_setCol_self (df : DF) (n : String) (vs : List (Option ℚ)) :
    (df.setCol n vs).getCol n = some vs := by
  obtain ⟨idx, cols⟩ := df
  simp only [DF.setCol, DF.hasCol]
  by_cases h : (List.any cols fun c => decide (c.1 = n)) = true
  · simp only [if_pos h, DF.getCol, find?_update_self, h, if_pos]
    rfl
  · simp only [if_neg h, DF.getCol,
      find?_append_self cols n vs (Bool.not_eq_true _ ▸ h)]
    rfl

lemma getCol_setCol_ne (df : DF) (n m : String) (vs : List (Option ℚ))
    (h : m ≠ n) : (df.setCol n vs).getCol m = df.getCol m := by
  obtain ⟨idx, cols⟩ := df
  simp only [DF.setCol, DF.hasCol]
  by_cases hc : (List.any cols fun c => decide (c.1 = n)) = true
  · simp only [if_pos hc, DF.getCol, find?_update_ne cols n m vs h]
  · simp only [if_neg hc, DF.getCol, find?_append_ne cols n m vs h]

lemma hasCol_setCol_ne (df : DF) (n m : String) (vs : List (Option ℚ))
    (h : m ≠ n) : (df.setCol n vs).hasCol m = df.hasCol m := by
  rw [hasCol_eq_isSome, hasCol_eq_isSome, getCol_setCol_ne df n m vs h]

/- ---------------------------------------------------------------------
Helper lemmas: the compute_treasury_swap_basis fold.
--------------------------------------------------------------------- -/

lemma basisStep_getCol_ne (df : DF) (tenor c : String)
    (h : c ≠ outputColumn tenor) :
    (basisStep df tenor).getCol c = df.getCol c := by
  unfold basisStep
  cases h1 : df.getCol (tenor ++ "_Treasury") with
  | none => rfl
  | some t =>
    cases h2 : df.getCol (tenor ++ "_Swap") with
    | none => rfl
    | some s => exact getCol_setCol_ne df _ c _ h

lemma basisStep_hasCol_ne (df : DF) (tenor c : String)
    (h : c ≠ outputColumn tenor) :
    (basisStep df tenor).hasCol c = df.hasCol c := by
  rw [hasCol_eq_isSome, hasCol_eq_isSome, basisStep_getCol_ne df tenor c h]

lemma basisStep_getCol_self (df : DF) (tenor : String)
    (t s : List (Option ℚ))
    (ht : df.getCol (tenor ++ "_Treasury") = some t)
    (hs : df.getCol (tenor ++ "_Swap") = some s) :
    (basisStep df tenor).getCol (outputColumn tenor) =
      some (List.zipWith basisCell t s) := by
  unfold basisStep
  rw [ht, hs]
  exact getCol_setCol_self df _ _

lemma basisStep_skip (df : DF) (tenor : String)
    (h : df.getCol (tenor ++ "_Treasury") = none ∨
      df.getCol (tenor ++ "_Swap") = none) :
    basisStep df tenor = df := by
  unfold basisStep
  rcases h with h | h
  · rw [h]
  · rw [h]
    cases df.getCol (tenor ++ "_Treasury") <;> rfl

/-- Once the output column of a tenor holds the computed basis and both its
source columns are intact, any run of further basis steps with compatible
names keeps all three columns unchanged in value. -/
lemma foldl_basisStep_keep (ts : List String) (df : DF) (tenor : String)
    (t s : List (Option ℚ))
    (hval : df.getCol (outputColumn tenor) =
      some (List.zipWith basisCell t s))
    (ht : df.getCol (tenor ++ "_Treasury") = some t)
    (hs : df.getCol (tenor ++ "_Swap") = some s)
    (hne : ∀ u ∈ ts, outputColumn u ≠ tenor ++ "_Treasury" ∧
      outputColumn u ≠ tenor ++ "_Swap")
    (hfire : ∀ u ∈ ts, outputColumn u = outputColumn tenor →
      u ++ "_Treasury" = tenor ++ "_Treasury" ∧
        u ++ "_Swap" = tenor ++ "_Swap") :
    (ts.foldl basisStep df).getCol (outputColumn tenor) =
      some (List.zipWith basisCell t s) := by
  induction ts generalizing df with
  | nil => exact hval
  | cons u rest ih =>
    simp only [List.foldl_cons]
    have hmem : u ∈ u :: rest := List.mem_cons_self u rest
    have hneu := hne u hmem
    have hval2 : (basisStep df u).getCol (outputColumn tenor) =
        some (List.zipWith basisCell t s) := by
      by_cases hu : outputColumn u = outputColumn tenor
      · obtain ⟨e1, e2⟩ := hfire u hmem hu
        rw [← hu]
        exact basisStep_getCol_self df u t s (by rw [e1]; exact ht)
          (by rw [e2]; exact hs)
      · rw [basisStep_getCol_ne df u _ (fun e => hu e.symm)]
        exact hval
    have ht2 : (basisStep df u).getCol (tenor ++ "_Treasury") = some t := by
      rw [basisStep_getCol_ne df u _ (fun e => hneu.1 e.symm)]
      exact ht
    have hs2 : (basisStep df u).getCol (tenor ++ "_Swap") = some s := by
      rw [basisStep_getCol_ne df u _ (fun e => hneu.2 e.symm)]
      exact hs
    exact ih (basisStep df u) hval2 ht2 hs2
      (fun v hv => hne v (List.mem_cons_of_mem u hv))
      (fun v hv => hfire v (List.mem_cons_of_mem u hv))

/-- When a tenor with both source columns present appears in the processed
list, the fold computes its output column as the pointwise basis. -/
lemma foldl_basisStep_compute (ts : List String) (df : DF) (tenor : String)
    (t s : List (Option ℚ))
    (hmem : tenor ∈ ts)
    (ht : df.getCol (tenor ++ "_Treasury") = some t)
    (hs : df.getCol (tenor ++ "_Swap") = some s)
    (hne : ∀ u ∈ ts, outputColumn u ≠ tenor ++ "_Treasury" ∧
      outputColumn u ≠ tenor ++ "_Swap")
    (hfire : ∀ u ∈ ts, outputColumn u = outputColumn tenor →
      u ++ "_Treasury" = tenor ++ "_Treasury" ∧
        u ++ "_Swap" = tenor ++ "_Swap") :
    (ts.foldl basisStep df).getCol (outputColumn tenor) =
      some (List.zipWith basisCell t s) := by
  induction ts generalizing df with
  | nil => cases hmem
  | cons u rest ih =>
    simp only [List.foldl_cons]
    have humem : u ∈ u :: rest := List.mem_cons_self u rest
    have hneu := hne u humem
    by_cases hu : outputColumn u = outputColumn tenor
    · obtain ⟨e1, e2⟩ := hfire u humem hu
      have hval2 : (basisStep df u).getCol (outputColumn tenor) =
          some (List.zipWith basisCell t s) := by
        rw [← hu]
        exact basisStep_getCol_self df u t s (by rw [e1]; exact ht)
          (by rw [e2]; exact hs)
      have ht2 : (basisStep df u).getCol (tenor ++ "_Treasury") = some t := by
        rw [basisStep_getCol_ne df u _ (fun e => hneu.1 e.symm)]
        exact ht
      have hs2 : (basisStep df u).getCol (tenor ++ "_Swap") = some s := by
        rw [basisStep_getCol_ne df u _ (fun e => hneu.2 e.symm)]
        exact hs
      exact foldl_basisStep_keep rest (basisStep df u) tenor t s hval2 ht2 hs2
        (fun v hv => hne v (List.mem_cons_of_mem u hv))
        (fun v hv => hfire v (List.mem_cons_of_mem u hv))
    · have hmem2 : tenor ∈ rest := by
        rcases List.mem_cons.mp hmem with h | h
        · exact absurd (congrArg outputColumn h.symm) hu
        · exact h
      have ht2 : (basisStep df u).getCol (tenor ++ "_Treasury") = some t := by
        rw [basisStep_getCol_ne df u _ (fun e => hneu.1 e.symm)]
        exact ht
      have hs2 : (basisStep df u).getCol (tenor ++ "_Swap") = some s := by
        rw [basisStep_getCol_ne df u _ (fun e => hneu.2 e.symm)]
        exact hs
      exact ih (basisStep df u) hmem2 ht2 hs2
        (fun v hv => hne v (List.mem_cons_of_mem u hv))
        (fun v hv => hfire v (List.mem_cons_of_mem u hv))

/-- When a tenor misses one of its source columns, no step of the fold can
introduce its output column. -/
lemma foldl_basisStep_skip (ts : List String) (df : DF) (tenor : String)
    (hmiss : df.getCol (tenor ++ "_Treasury") = none ∨
      df.getCol (tenor ++ "_Swap") = none)
    (hoc : df.hasCol (outputColumn tenor) = false)
    (hne : ∀ u ∈ ts, outputColumn u ≠ tenor ++ "_Treasury" ∧
      outputColumn u ≠ tenor ++ "_Swap")
    (hfire : ∀ u ∈ ts, outputColumn u = outputColumn tenor →
      u ++ "_Treasury" = tenor ++ "_Treasury" ∧
        u ++ "_Swap" = tenor ++ "_Swap") :
    (ts.foldl basisStep df).hasCol (outputColumn tenor) = false := by
  induction ts generalizing df with
  | nil => exact hoc
  | cons u rest ih =>
    simp only [List.foldl_cons]
    have humem : u ∈ u :: rest := List.mem_cons_self u rest
    have hneu := hne u humem
    have hmiss2 : (basisStep df u).getCol (tenor ++ "_Treasury") = none ∨
        (basisStep df u).getCol (tenor ++ "_Swap") = none := by
      rcases hmiss with h | h
      · exact Or.inl (by
          rw [basisStep_getCol_ne df u _ (fun e => hneu.1 e.symm)]; exact h)
      · exact Or.inr (by
          rw [basisStep_getCol_ne df u _ (fun e => hneu.2 e.symm)]; exact h)
    have hoc2 : (basisStep df u).hasCol (outputColumn tenor) = false := by
      by_cases hu : outputColumn u = outputColumn tenor
      · obtain ⟨e1, e2⟩ := hfire u humem hu
        have : basisStep df u = df := by
          apply basisStep_skip
          rcases hmiss with h | h
          · exact Or.inl (by rw [e1]; exact h)
          · exact Or.inr (by rw [e2]; exact h)
        rw [this]
        exact hoc
      · rw [basisStep_hasCol_ne df u _ (fun e => hu e.symm)]
        exact hoc
    exact ih (basisStep df u) hmiss2 hoc2
      (fun v hv => hne v (List.mem_cons_of_mem u hv))
      (fun v hv => hfire v (List.mem_cons_of_mem u hv))

/-- Concrete name facts for the seven tenors: no output label collides with
a source label, and equal output labels force equal tenors. -/
lemma tenors_name_facts : ∀ tenor ∈ tenors, ∀ u ∈ tenors,
    (outputColumn u ≠ tenor ++ "_Treasury" ∧
      outputColumn u ≠ tenor ++ "_Swap") ∧
    (outputColumn u = outputColumn tenor → u = tenor) := by decide

/-- The Arb_Swap_i and tswap_i_rf labels differ for every year: their first
characters differ. -/
lemma arbName_ne_tswapName (i : Nat) : arbName i ≠ tswapName i := by
  intro h
  have h2 : ('A' : Char) = 't' :=
    congrArg (fun z => z.data.headD ' ') h
  exact absurd h2 (by decide)

/-- One calc_swap_spreads iteration with both source columns present
succeeds and stores the pointwise legacy spread. -/
lemma swapSpreadStep_spec (df : DF) (i : Nat) (g u : List (Option ℚ))
    (hg : df.getCol (gtName i) = some g)
    (hu : df.getCol (ussoName i) = some u) :
    ∃ df₂, swapSpreadStep df i = some df₂ ∧
      df₂.getCol (arbName i) = some (List.zipWith arbCell g u) := by
  refine ⟨(df.setCol (arbName i) (List.zipWith arbCell g u)).setCol
    (tswapName i) (u.map tswapCell), ?_, ?_⟩
  · simp [swapSpreadStep, hg, hu]
  · rw [getCol_setCol_ne _ _ _ _ (arbName_ne_tswapName i)]
    exact getCol_setCol_self _ _ _

/- ---------------------------------------------------------------------
Helper lemmas: forward fill.
--------------------------------------------------------------------- -/

lemma ffillCol_length (last : Option ℚ) (xs : List (Option ℚ)) :
    (ffillCol last xs).length = xs.length := by
  induction xs generalizing last with
  | nil => rfl
  | cons a tail ih => cases a <;> simp [ffillCol, ih]

/-- The forward-filled value at position i is the last observation within
the first i + 1 cells, or the carried value when there is none. -/
lemma ffillCol_getD (xs : List (Option ℚ)) (last : Option ℚ) (i : Nat)
    (hi : i < xs.length) :
    (ffillCol last xs).getD i none =
      (match ((xs.take (i + 1)).filterMap id).getLast? with
      | some v => some v
      | none => last) := by
  induction xs generalizing last i with
  | nil => exact absurd hi (by simp)
  | cons a tail ih =>
    cases a with
    | none =>
      cases i with
      | zero => simp [ffillCol]
      | succ j =>
        have hj : j < tail.length := by simpa using hi
        simp only [ffillCol, List.getD_cons_succ, List.take_succ_cons,
          List.filterMap_cons]
        exact ih last j hj
    | some v =>
      cases i with
      | zero => simp [ffillCol]
      | succ j =>
        have hj : j < tail.length := by simpa using hi
        simp only [ffillCol, List.getD_cons_succ, List.take_succ_cons,
          List.filterMap_cons]
        rw [ih (some v) j hj]
        cases h : ((tail.take (j + 1)).filterMap id).getLast? with
        | none => simp [List.getLast?_cons, h]
        | some w => simp [List.getLast?_cons, h]

/-- With no carried value, forward fill at position i is exactly the last
observation among the first i + 1 cells. -/
lemma ffillCol_getD_none (xs : List (Option ℚ)) (i : Nat)
    (hi : i < xs.length) :
    (ffillCol none xs).getD i none =
      ((xs.take (i + 1)).filterMap id).getLast? := by
  rw [ffillCol_getD xs none i hi]
  cases h : ((xs.take (i + 1)).filterMap id).getLast? <;> simp

/-- Presence after forward fill equals presence of the carry or of some
observation in the prefix. -/
lemma ffill_isSome_aux (xs : List (Option ℚ)) (last : Option ℚ) (i : Nat)
    (hi : i < xs.length) :
    ((ffillCol last xs).getD i none).isSome =
      (last.isSome || (xs.take (i + 1)).any (fun o => o.isSome)) := by
  induction xs generalizing last i with
  | nil => exact absurd hi (by simp)
  | cons a tail ih =>
    cases a with
    | none =>
      cases i with
      | zero => simp [ffillCol]
      | succ j =>
        have hj : j < tail.length := by simpa using hi
        simp only [ffillCol, List.getD_cons_succ, List.take_succ_cons,
          List.any_cons, Option.isSome_none, Bool.false_or]
        exact ih last j hj
    | some v =>
      cases i with
      | zero => simp [ffillCol]
      | succ j =>
        have hj : j < tail.length := by simpa using hi
        simp only [ffillCol, List.getD_cons_succ, List.take_succ_cons,
          List.any_cons, Option.isSome_some, Bool.true_or]
        rw [ih (some v) j hj]
        simp

/-- A prefix holds an observation exactly when some position up to i does. -/
lemma any_take_iff (xs : List (Option ℚ)) (i : Nat) :
    ((xs.take (i + 1)).any (fun o => o.isSome) = true) ↔
      ∃ j, j ≤ i ∧ (xs.getD j none).isSome = true := by
  induction xs generalizing i with
  | nil =>
    simp
  | cons a tail ih =>
    cases i with
    | zero =>
      simp only [List.take_succ_cons, List.take_zero, List.any_cons,
        List.any_nil, Bool.or_false]
      constructor
      · intro h
        exact ⟨0, le_refl 0, by simpa using h⟩
      · rintro ⟨j, hj, hsome⟩
        have hj0 : j = 0 := Nat.le_zero.mp hj
        subst hj0
        simpa using hsome
    | succ k =>
      simp only [List.take_succ_cons, List.any_cons, Bool.or_eq_true]
      constructor
      · rintro (h | h)
        · exact ⟨0, Nat.zero_le _, by simpa using h⟩
        · obtain ⟨j, hj, hsome⟩ := (ih k).mp h
          exact ⟨j + 1, by omega, by simpa using hsome⟩
      · rintro ⟨j, hj, hsome⟩
        cases j with
        | zero => exact Or.inl (by simpa using hsome)
        | succ j2 =>
          exact Or.inr ((ih k).mpr ⟨j2, by omega, by simpa using hsome⟩)

/-- Presence after forward fill with no carry equals existence of an
observation at or before the position. -/
lemma ffill_isSome_iff (xs : List (Option ℚ)) (i : Nat) (hi : i < xs.length) :
    (((ffillCol none xs).getD i none).isSome = true ↔
      ∃ j, j ≤ i ∧ (xs.getD j none).isSome = true) := by
  rw [ffill_isSome_aux xs none i hi]
  simp only [Option.isSome_none, Bool.false_or]
  exact any_take_iff xs i

/- ---------------------------------------------------------------------
Claim C1
--------------------------------------------------------------------- -/

/-- C1, counterexample: calc_swap_spreads also emits Arb_Swap_10, but on
Treasury 5 percent and swap 4 percent it stores 100 * (-5 + 4) = -100,
not (5 - 4) * 100 = 100: the claimed basis formula fails on this code
path. -/
theorem C1_counterexample :
    (calcSwapSpreads exLegacyT exLegacyS).bind
        (fun o => o.getCol "Arb_Swap_10") =
      some [some (100 * (-(5 : ℚ) + 4))] ∧
    (100 * (-(5 : ℚ) + 4)) = -100 ∧
    (100 * (-(5 : ℚ) + 4)) ≠ ((5 : ℚ) - 4) * 100 := by
  refine ⟨rfl, by norm_num, by norm_num⟩

/-- C1, amended: in compute_treasury_swap_basis every tenor with both
columns present yields Arb_Swap equal to the pointwise
(treasury - swap) * 100; calc_swap_spreads instead emits
Arb_Swap_i as the pointwise 100 * (swap - treasury), the opposite sign. -/
theorem C1_basis_sign_amended :
    (∀ (df : DF) (tenor : String) (t s : List (Option ℚ)), tenor ∈ tenors →
      df.getCol (tenor ++ "_Treasury") = some t →
      df.getCol (tenor ++ "_Swap") = some s →
      (computeTreasurySwapBasis df).getCol (outputColumn tenor) =
        some (List.zipWith basisCell t s)) ∧
    (∀ a b : ℚ, basisCell (some a) (some b) = some ((a - b) * 100)) ∧
    (∀ (df : DF) (i : Nat) (g u : List (Option ℚ)),
      df.getCol (gtName i) = some g → df.getCol (ussoName i) = some u →
      ∃ df₂, swapSpreadStep df i = some df₂ ∧
        df₂.getCol (arbName i) = some (List.zipWith arbCell g u)) ∧
    (∀ a b : ℚ, arbCell (some a) (some b) = some (100 * (-a + b))) := by
  refine ⟨?_, fun a b => rfl, ?_, fun a b => rfl⟩
  · intro df tenor t s hmem ht hs
    exact foldl_basisStep_compute tenors df tenor t s hmem ht hs
      (fun v hv => (tenors_name_facts tenor hmem v hv).1)
      (fun v hv he => by
        have h := (tenors_name_facts tenor hmem v hv).2 he
        subst h
        exact ⟨rfl, rfl⟩)
  · intro df i g u hg hu
    exact swapSpreadStep_spec df i g u hg hu

/-- C1, witness: the amended theorem applied on concrete tables, for the
1Y tenor of the new calculator and the 10Y year of the legacy one. -/
theorem C1_basis_sign_amended_witness :
    (computeTreasurySwapBasis exC4df).getCol (outputColumn "1Y") =
      some (List.zipWith basisCell [some 3] [some 2]) ∧
    basisCell (some 5) (some 4) = some (((5 : ℚ) - 4) * 100) ∧
    (swapSpreadStep exLegacyMerged 10).isSome = true ∧
    arbCell (some 5) (some 4) = some (100 * (-(5 : ℚ) + 4)) := by
  refine ⟨?_, C1_basis_sign_amended.2.1 5 4, ?_,
    C1_basis_sign_amended.2.2.2 5 4⟩
  · exact C1_basis_sign_amended.1 exC4df "1Y" [some 3] [some 2]
      (by decide) (by decide) (by decide)
  · obtain ⟨df₂, he, hc⟩ := C1_basis_sign_amended.2.2.1 exLegacyMerged 10
      [some 5, some 5] [some 4, some 4] (by decide) (by decide)
    rw [he]
    rfl

/- ---------------------------------------------------------------------
Claim C4
--------------------------------------------------------------------- -/

/-- C4: for every merged table and tenor, a tenor missing either source
column emits no Arb_Swap column (and the fold is a total function, so no
error is raised), while every tenor with both columns present is still
computed as the pointwise basis. -/
theorem C4_missing_tenor_skipped (df : DF) (tenor : String)
    (hmem : tenor ∈ tenors) :
    ((df.getCol (tenor ++ "_Treasury") = none ∨
        df.getCol (tenor ++ "_Swap") = none) →
      df.hasCol (outputColumn tenor) = false →
      (computeTreasurySwapBasis df).hasCol (outputColumn tenor) = false) ∧
    (∀ t s, df.getCol (tenor ++ "_Treasury") = some t →
      df.getCol (tenor ++ "_Swap") = some s →
      (computeTreasurySwapBasis df).getCol (outputColumn tenor) =
        some (List.zipWith basisCell t s)) := by
  constructor
  · intro hmiss hoc
    exact foldl_basisStep_skip tenors df tenor hmiss hoc
      (fun v hv => (tenors_name_facts tenor hmem v hv).1)
      (fun v hv he => by
        have h := (tenors_name_facts tenor hmem v hv).2 he
        subst h
        exact ⟨rfl, rfl⟩)
  · intro t s ht hs
    exact foldl_basisStep_compute tenors df tenor t s hmem ht hs
      (fun v hv => (tenors_name_facts tenor hmem v hv).1)
      (fun v hv he => by
        have h := (tenors_name_facts tenor hmem v hv).2 he
        subst h
        exact ⟨rfl, rfl⟩)

/-- C4, witness: on a table missing the 10Y swap column but carrying the
1Y pair, no Arb_Swap_10 column appears while Arb_Swap_1 is computed. -/
theorem C4_missing_tenor_skipped_witness :
    (computeTreasurySwapBasis exC4df).hasCol (outputColumn "10Y") = false ∧
    (computeTreasurySwapBasis exC4df).getCol (outputColumn "1Y") =
      some (List.zipWith basisCell [some 3] [some 2]) := by
  constructor
  · exact (C4_missing_tenor_skipped exC4df "10Y" (by decide)).1
      (Or.inr (by decide)) (by decide)
  · exact (C4_missing_tenor_skipped exC4df "1Y" (by decide)).2
      [some 3] [some 2] (by decide) (by decide)

/- ---------------------------------------------------------------------
Claim C6
--------------------------------------------------------------------- -/

set_option maxHeartbeats 1600000 in
/-- C6: after the forward-fill step of the basis calculator, every column
keeps its label, the value at each position is the last observation of the
computed basis at or before it (so leading missing cells stay missing and
internal gaps are filled with the last preceding value), and a position is
non-missing exactly when some position at or before it held a computed
basis value. -/
theorem C6_forward_fill (treasury_df swap_df : DF) (end_date : Option Date)
    (k i : Nat)
    (hk : k < (basisBeforeFfill treasury_df swap_df end_date).cols.length)
    (hi : i <
      ((basisBeforeFfill treasury_df swap_df end_date).cols.getD k
        ("", [])).2.length) :
    (((calculateTreasurySwapBasis treasury_df swap_df end_date).cols.getD k
        ("", [])).1 =
      ((basisBeforeFfill treasury_df swap_df end_date).cols.getD k
        ("", [])).1) ∧
    (((calculateTreasurySwapBasis treasury_df swap_df end_date).cols.getD k
        ("", [])).2.getD i none =
      ((((basisBeforeFfill treasury_df swap_df end_date).cols.getD k
        ("", [])).2.take (i + 1)).filterMap id).getLast?) ∧
    ((((calculateTreasurySwapBasis treasury_df swap_df end_date).cols.getD k
        ("", [])).2.getD i none).isSome = true ↔
      ∃ j, j ≤ i ∧
        (((basisBeforeFfill treasury_df swap_df end_date).cols.getD k
          ("", [])).2.getD j none).isSome = true) := by
  have hcols : (calculateTreasurySwapBasis treasury_df swap_df end_date).cols =
      (basisBeforeFfill treasury_df swap_df end_date).cols.map
        (fun c => (c.1, ffillCol none c.2)) := rfl
  have hmap : ∀ (l : List (String × List (Option ℚ))) (k2 : Nat),
      k2 < l.length →
      (l.map (fun c => (c.1, ffillCol none c.2))).getD k2 ("", []) =
        ((l.getD k2 ("", [])).1, ffillCol none ((l.getD k2 ("", [])).2)) := by
    intro l k2 hk2
    rw [List.getD_eq_getElem _ _ (by simpa using hk2),
      List.getD_eq_getElem _ _ hk2, List.getElem_map]
  rw [hcols, hmap _ k hk]
  refine ⟨rfl, ?_, ?_⟩
  · exact ffillCol_getD_none _ i hi
  · exact ffill_isSome_iff _ i hi

/-- C6, witness: on a concrete pair of tables whose 10Y basis column is
present on the first date and missing on the second, the theorem applies
at column 1 and position 1. -/
theorem C6_forward_fill_witness :
    (((calculateTreasurySwapBasis exPrepT exPrepS none).cols.getD 1
        ("", [])).1 =
      ((basisBeforeFfill exPrepT exPrepS none).cols.getD 1 ("", [])).1) ∧
    (((calculateTreasurySwapBasis exPrepT exPrepS none).cols.getD 1
        ("", [])).2.getD 1 none =
      ((((basisBeforeFfill exPrepT exPrepS none).cols.getD 1
        ("", [])).2.take 2).filterMap id).getLast?) :=
  ⟨(C6_forward_fill exPrepT exPrepS none 1 1 (by decide) (by decide)).1,
    (C6_forward_fill exPrepT exPrepS none 1 1 (by decide) (by decide)).2.1⟩

/- ---------------------------------------------------------------------
Claim C3
--------------------------------------------------------------------- -/

/-- A date belongs to the inner-merged index exactly when it belongs to
both input indices. -/
lemma mem_mergeInner_index (l r : DF) (d : Date) :
    d ∈ (mergeInner l r).index ↔ d ∈ l.index ∧ d ∈ r.index := by
  simp [mergeInner, List.mem_filter]

/-- With no label shared between the two sides, the merged column labels
are the left labels followed by the right labels, unchanged. -/
lemma mergeInner_colNames (l r : DF)
    (hdisj : ∀ n ∈ l.colNames, n ∉ r.colNames) :
    (mergeInner l r).colNames = l.colNames ++ r.colNames := by
  have hl : ∀ c ∈ l.cols, r.hasCol c.1 = false := by
    intro c hc
    have : c.1 ∉ r.colNames :=
      hdisj c.1 (by exact List.mem_map.mpr ⟨c, hc, rfl⟩)
    rw [← Bool.not_eq_true]
    intro hcon
    exact this ((hasCol_iff_mem_colNames r c.1).mp hcon)
  have hr : ∀ c ∈ r.cols, l.hasCol c.1 = false := by
    intro c hc
    have : c.1 ∈ r.colNames := List.mem_map.mpr ⟨c, hc, rfl⟩
    rw [← Bool.not_eq_true]
    intro hcon
    exact hdisj c.1 ((hasCol_iff_mem_colNames l c.1).mp hcon) this
  simp only [mergeInner, DF.colNames, List.map_append, List.map_map]
  congr 1
  · apply List.map_congr_left
    intro c hc
    simp [hl c hc]
  · apply List.map_congr_left
    intro c hc
    simp [hr c hc]

/-- C3, counterexample: a treasury column matched by no lookup entry is
retained by prepare_data (with its data), not dropped as claimed. -/
theorem C3_counterexample :
    lookupStr TREASURY_MAPPING "FOO" = none ∧
    strHasSub "FOO" "_PX_LAST" = false ∧
    (prepareData exFooT exFooS).colNames = ["FOO"] ∧
    (prepareData exFooT exFooS).getCol "FOO" = some [some 1] := by
  refine ⟨rfl, rfl, rfl, ?_⟩
  decide

/-- C3, amended: prepare_data returns the table indexed by the intersection
of the two date indices (so disjoint ranges give an empty index); columns
whose vendor label carries the PX_LAST marker and a known ticker are
renamed to the tenor_Treasury and tenor_Swap form, and all other columns
are retained under their original label rather than dropped. -/
theorem C3_prepare_data_amended (treasury_df swap_df : DF)
    (hdisj : ∀ n ∈ treasury_df.colNames.map
        (cleanColName TREASURY_MAPPING "Treasury"),
      n ∉ swap_df.colNames.map (cleanColName SWAP_MAPPING "Swap")) :
    (∀ d, d ∈ (prepareData treasury_df swap_df).index ↔
      d ∈ treasury_df.index ∧ d ∈ swap_df.index) ∧
    (prepareData treasury_df swap_df).colNames =
      treasury_df.colNames.map (cleanColName TREASURY_MAPPING "Treasury") ++
        swap_df.colNames.map (cleanColName SWAP_MAPPING "Swap") ∧
    (∀ p ∈ TREASURY_MAPPING,
      cleanColName TREASURY_MAPPING "Treasury" (p.1 ++ " Index_PX_LAST") =
        p.2 ++ "_Treasury") ∧
    (∀ p ∈ SWAP_MAPPING,
      cleanColName SWAP_MAPPING "Swap" (p.1 ++ " Curncy_PX_LAST") =
        p.2 ++ "_Swap") ∧
    (∀ (m : List (String × String)) (suffix n : String),
      strHasSub n "_PX_LAST" = false → cleanColName m suffix n = n) := by
  refine ⟨?_, ?_, by decide, by decide, ?_⟩
  · intro d
    exact mem_mergeInner_index _ _ d
  · have h := mergeInner_colNames
      (DF.mk treasury_df.index (treasury_df.cols.map (fun c =>
        (cleanColName TREASURY_MAPPING "Treasury" c.1, c.2))))
      (DF.mk swap_df.index (swap_df.cols.map (fun c =>
        (cleanColName SWAP_MAPPING "Swap" c.1, c.2))))
      (by
        intro n hn
        have hn2 : n ∈ treasury_df.colNames.map
            (cleanColName TREASURY_MAPPING "Treasury") := by
          simpa [DF.colNames, List.map_map, Function.comp] using hn
        intro hc
        apply hdisj n hn2
        simpa [DF.colNames, List.map_map, Function.comp] using hc)
    simpa [prepareData, DF.colNames, List.map_map, Function.comp] using h
  · intro m suffix n hn
    simp [cleanColName, hn]

/-- C3, witness: the amended theorem applied to the concrete vendor tables,
whose cleaned labels are disjoint. -/
theorem C3_prepare_data_amended_witness :
    (∀ d, d ∈ (prepareData exVendorT exVendorS).index ↔
      d ∈ exVendorT.index ∧ d ∈ exVendorS.index) ∧
    (prepareData exVendorT exVendorS).colNames =
      exVendorT.colNames.map (cleanColName TREASURY_MAPPING "Treasury") ++
        exVendorS.colNames.map (cleanColName SWAP_MAPPING "Swap") :=
  ⟨(C3_prepare_data_amended exVendorT exVendorS (by decide)).1,
    (C3_prepare_data_amended exVendorT exVendorS (by decide)).2.1⟩

/- ---------------------------------------------------------------------
Claim C10
--------------------------------------------------------------------- -/

/-- Dropping all-missing rows only removes dates from the index. -/
lemma dropnaAll_index_sub (df : DF) (d : Date) :
    d ∈ (dropnaAll df).index → d ∈ df.index := by
  simp only [dropnaAll, List.mem_map]
  rintro ⟨i, hi, rfl⟩
  have hlen : i < df.index.length :=
    List.mem_range.mp (List.mem_filter.mp hi).1
  rw [List.getD_eq_getElem _ _ hlen]
  exact List.getElem_mem hlen

/-- C10: whenever calc_swap_spreads succeeds, every date of its output has
calendar year at least 2000, even though the configured default start date
lies in 1998. -/
theorem C10_year_filter (treasury_df swap_df : DF) (out : DF)
    (h : calcSwapSpreads treasury_df swap_df = some out) :
    ∀ d ∈ out.index, 2000 ≤ d.y := by
  rw [show calcSwapSpreads treasury_df swap_df =
      (sYears.foldlM swapSpreadStep (mergeInner swap_df treasury_df)).bind
        (fun m => some (dropnaAll (selectCols
          (filterRows m (fun dt => decide (2000 ≤ dt.y)))
          (sYears.map arbName ++ sYears.map tswapName)))) from rfl] at h
  cases hf : sYears.foldlM swapSpreadStep (mergeInner swap_df treasury_df) with
  | none =>
    rw [hf] at h
    simp at h
  | some m =>
    rw [hf] at h
    simp only [Option.some_bind, Option.some.injEq] at h
    intro d hd
    rw [← h] at hd
    have h1 := dropnaAll_index_sub
      (selectCols (filterRows m (fun dt => decide (2000 ≤ dt.y)))
        (sYears.map arbName ++ sYears.map tswapName)) d hd
    have h2 : d ∈ m.index.filter (fun dt => decide (2000 ≤ dt.y)) := h1
    have h3 := (List.mem_filter.mp h2).2
    exact of_decide_eq_true h3

/-- C10, witness: on the concrete legacy tables holding a 1999 and a 2024
date, the surviving date is in 2024. -/
theorem C10_year_filter_witness : 2000 ≤ d2024.y :=
  C10_year_filter exLegacyT exLegacyS exLegacyOut rfl d2024 (by decide)

/- ---------------------------------------------------------------------
Claim C2: order lemmas for the export sort.
--------------------------------------------------------------------- -/

lemma natsLT_trans (x : List Nat) :
    ∀ y z, natsLT x y = true → natsLT y z = true → natsLT x z = true := by
  induction x with
  | nil =>
    intro y z h1 h2
    cases y with
    | nil => simp [natsLT] at h1
    | cons b t =>
      cases z with
      | nil => simp [natsLT] at h2
      | cons c u => simp [natsLT]
  | cons a s ih =>
    intro y z h1 h2
    cases y with
    | nil => simp [natsLT] at h1
    | cons b t =>
      cases z with
      | nil => simp [natsLT] at h2
      | cons c u =>
        simp only [natsLT, Bool.or_eq_true, Bool.and_eq_true,
          decide_eq_true_eq] at h1 h2 ⊢
        rcases h1 with h1 | ⟨hb, h1⟩
        · rcases h2 with h2 | ⟨hc, h2⟩
          · exact Or.inl (by omega)
          · exact Or.inl (by omega)
        · rcases h2 with h2 | ⟨hc, h2⟩
          · exact Or.inl (by omega)
          · exact Or.inr ⟨by omega, ih t u h1 h2⟩

lemma natsLT_trichotomy (x : List Nat) :
    ∀ y, natsLT x y = true ∨ x = y ∨ natsLT y x = true := by
  induction x with
  | nil =>
    intro y
    cases y with
    | nil => exact Or.inr (Or.inl rfl)
    | cons b t => exact Or.inl (by simp [natsLT])
  | cons a s ih =>
    intro y
    cases y with
    | nil => exact Or.inr (Or.inr (by simp [natsLT]))
    | cons b t =>
      rcases Nat.lt_trichotomy a b with h | h | h
      · left
        simp only [natsLT, Bool.or_eq_true, Bool.and_eq_true,
          decide_eq_true_eq]
        exact Or.inl h
      · subst h
        rcases ih t with h2 | h2 | h2
        · left
          simp only [natsLT, Bool.or_eq_true, Bool.and_eq_true,
            decide_eq_true_eq]
          exact Or.inr ⟨by trivial, h2⟩
        · exact Or.inr (Or.inl (by rw [h2]))
        · right; right
          simp only [natsLT, Bool.or_eq_true, Bool.and_eq_true,
            decide_eq_true_eq]
          exact Or.inr ⟨by trivial, h2⟩
      · right; right
        simp only [natsLT, Bool.or_eq_true, Bool.and_eq_true,
          decide_eq_true_eq]
        exact Or.inl h

lemma dateLeB_trans (a b c : Date) (h1 : Date.leB a b = true)
    (h2 : Date.leB b c = true) : Date.leB a c = true := by
  simp only [Date.leB, Bool.or_eq_true, Bool.and_eq_true,
    decide_eq_true_eq] at h1 h2 ⊢
  omega

lemma dateLeB_total (a b : Date) :
    Date.leB a b = true ∨ Date.leB b a = true := by
  simp only [Date.leB, Bool.or_eq_true, Bool.and_eq_true, decide_eq_true_eq]
  omega

/-- The export row order is transitive. -/
lemma rowRel_isTrans : IsTrans (String × Date × ℚ) rowRel := by
  constructor
  intro a b c hab hbc
  unfold rowRel rowLE at *
  simp only [Bool.or_eq_true, Bool.and_eq_true, decide_eq_true_eq]
    at hab hbc ⊢
  rcases hab with h1 | ⟨e1, d1⟩
  · rcases hbc with h2 | ⟨e2, d2⟩
    · exact Or.inl (natsLT_trans _ _ _ h1 h2)
    · exact Or.inl (by rw [← e2]; exact h1)
  · rcases hbc with h2 | ⟨e2, d2⟩
    · exact Or.inl (by rw [e1]; exact h2)
    · exact Or.inr ⟨e1.trans e2, dateLeB_trans _ _ _ d1 d2⟩

/-- The export row order is total. -/
lemma rowRel_isTotal : IsTotal (String × Date × ℚ) rowRel := by
  constructor
  intro a b
  unfold rowRel rowLE
  simp only [Bool.or_eq_true, Bool.and_eq_true, decide_eq_true_eq]
  rcases natsLT_trichotomy (strKey a.1) (strKey b.1) with h | h | h
  · exact Or.inl (Or.inl h)
  · rcases dateLeB_total a.2.1 b.2.1 with hd | hd
    · exact Or.inl (Or.inr ⟨h, hd⟩)
    · exact Or.inr (Or.inr ⟨h.symm, hd⟩)
  · exact Or.inr (Or.inl h)

/- ---------------------------------------------------------------------
Claim C2: keys of the stacked rows.
--------------------------------------------------------------------- -/

/-- Dropping missing values keeps keys, as a sublist. -/
lemma dropnaRows_keys_sublist (rs : List (String × Date × Option ℚ)) :
    ((dropnaRows rs).map rowKey).Sublist (rs.map cellKey) := by
  induction rs with
  | nil => simp [dropnaRows]
  | cons r rest ih =>
    obtain ⟨u, dt, v⟩ := r
    cases v with
    | none =>
      simp only [dropnaRows, List.filterMap_cons, List.map_cons]
      exact ih.cons _
    | some q =>
      simp only [dropnaRows, List.filterMap_cons, List.map_cons]
      exact ih.cons₂ _

/-- The keys of the stacked rows, with values forgotten. -/
lemma stackRows_map_cellKey (df : DF) :
    (stackRows df).map cellKey =
      df.index.enum.flatMap
        (fun p => df.cols.map (fun c => (c.1, p.2))) := by
  simp only [stackRows, List.map_flatMap, List.map_map]
  rfl

/-- Pairs (label, date) over distinct labels and distinct dates are
pairwise distinct. -/
lemma nodup_pairs (cols : List (String × List (Option ℚ)))
    (ps : List (ℕ × Date))
    (hnames : (cols.map Prod.fst).Nodup)
    (hdates : (ps.map Prod.snd).Nodup) :
    (ps.flatMap (fun p => cols.map (fun c => (c.1, p.2)))).Nodup := by
  induction ps with
  | nil => simp
  | cons p rest ih =>
    simp only [List.map_cons, List.nodup_cons] at hdates
    simp only [List.flatMap_cons]
    rw [List.nodup_append]
    refine ⟨?_, ih hdates.2, ?_⟩
    · have hmm : cols.map (fun c => (c.1, p.2)) =
          (cols.map Prod.fst).map (fun n => (n, p.2)) := by
        rw [List.map_map]
        rfl
      rw [hmm]
      exact hnames.map (fun a b h => congrArg Prod.fst h)
    · intro x hx hx2
      obtain ⟨c, hc, rfl⟩ := List.mem_map.mp hx
      obtain ⟨q, hq, hq2⟩ := List.mem_flatMap.mp hx2
      obtain ⟨c2, hc2, he⟩ := List.mem_map.mp hq2
      exact hdates.1
        (List.mem_map.mpr ⟨q, hq, (congrArg Prod.snd he).symm ▸ rfl⟩)

/-- C2, counterexample: on a wide table whose date index repeats a date,
the exporter emits a duplicate (unique_id, ds) pair, contradicting the
claimed uniqueness for every non-empty wide table. -/
theorem C2_counterexample :
    ((ftsfrExport exDupDates).map rowKey) = [("A", d2024), ("A", d2024)] ∧
    ¬ ((ftsfrExport exDupDates).map rowKey).Nodup := by
  constructor
  · decide
  · decide

/-- C2, amended: for every wide table with pairwise-distinct index dates
and pairwise-distinct column labels, the long-format export is sorted
ascending by (unique_id, ds) under dense positional row numbering, has no
duplicate (unique_id, ds) pair, and every row carries a non-missing value
taken from a cell of the stacked table (so the output has exactly the
three components unique_id, ds, y and no missing y). -/
theorem C2_long_format_amended (df : DF)
    (hdates : df.index.Nodup) (hnames : df.colNames.Nodup) :
    List.Pairwise rowRel (ftsfrExport df) ∧
    ((ftsfrExport df).map rowKey).Nodup ∧
    (∀ r ∈ ftsfrExport df, (r.1, r.2.1, some r.2.2) ∈ stackRows df) := by
  have hperm : (ftsfrExport df).Perm (dropnaRows (stackRows df)) :=
    List.perm_insertionSort rowRel _
  refine ⟨?_, ?_, ?_⟩
  · haveI := rowRel_isTrans
    haveI := rowRel_isTotal
    exact List.sorted_insertionSort rowRel _
  · have hkeys : ((stackRows df).map cellKey).Nodup := by
      rw [stackRows_map_cellKey]
      apply nodup_pairs df.cols df.index.enum hnames
      rw [List.enum_map_snd]
      exact hdates
    have hd : ((dropnaRows (stackRows df)).map rowKey).Nodup :=
      (dropnaRows_keys_sublist (stackRows df)).nodup hkeys
    exact ((hperm.map rowKey).symm).nodup hd
  · intro r hr
    have hmem : r ∈ dropnaRows (stackRows df) := hperm.mem_iff.mp hr
    obtain ⟨a, ha, he⟩ := List.mem_filterMap.mp hmem
    obtain ⟨u, dt, v⟩ := a
    cases v with
    | none => exact Option.noConfusion he
    | some q =>
      have h2 : (u, dt, q) = r := Option.some.inj he
      rw [← h2]
      exact ha

/-- C2, witness: the amended theorem applied to a concrete well-formed
wide basis table. -/
theorem C2_long_format_amended_witness :
    List.Pairwise rowRel (ftsfrExport exWide) ∧
    ((ftsfrExport exWide).map rowKey).Nodup :=
  ⟨(C2_long_format_amended exWide (by decide) (by decide)).1,
    (C2_long_format_amended exWide (by decide) (by decide)).2.1⟩

/- ---------------------------------------------------------------------
Claim C5
--------------------------------------------------------------------- -/

/-- The arb-column selection of sup_table succeeds exactly when every
required column is present. -/
lemma selectArbCols_isSome (calc_df : DF) (ys : List Nat) :
    (selectArbCols calc_df ys).isSome = true ↔
      ∀ y ∈ ys, calc_df.hasCol (arbName y) = true := by
  induction ys with
  | nil => simp [selectArbCols]
  | cons y rest ih =>
    have hstep : (selectArbCols calc_df (y :: rest)).isSome =
        ((calc_df.getCol (arbName y)).isSome &&
          (selectArbCols calc_df rest).isSome) := by
      cases hg : calc_df.getCol (arbName y) with
      | none => simp [selectArbCols, hg]
      | some vs =>
        cases hr : selectArbCols calc_df rest with
        | none => simp [selectArbCols, hg, hr]
        | some l => simp [selectArbCols, hg, hr]
    rw [hstep, Bool.and_eq_true, ih, ← hasCol_eq_isSome]
    constructor
    · rintro ⟨h1, h2⟩ z hz
      rcases List.mem_cons.mp hz with hz1 | hz2
      · rw [hz1]; exact h1
      · exact h2 z hz2
    · intro h
      exact ⟨h y (List.mem_cons_self y rest),
        fun z hz => h z (List.mem_cons_of_mem y hz)⟩

/-- C5, counterexample: with the Arb_Swap_30 column absent, sup_table
fails (none models the KeyError raised by the unconditional seven-column
selection), so not every table generation skips missing tenors. -/
theorem C5_counterexample : supTable exNo30 = none := by decide

/-- C5, amended: the primary chart and the per-tenor supplementary charts
skip a tenor exactly when its columns are absent and never fail (they are
total functions emitting one trace per present tenor); the LaTeX mean
table, however, requires all seven Arb_Swap columns and raises a KeyError
when any is absent. -/
theorem C5_plots_skip_table_raises :
    (∀ (arb_df : DF) (sD eD : Option Date) (year : Nat)
      (tr : List (Date × ℚ)),
      (year, tr) ∈ plotFigureTraces arb_df sD eD →
        arb_df.hasCol ("Arb_Swap_" ++ toString year) = true) ∧
    (∀ (arb_df : DF) (sD eD : Option Date) (year : Nat),
      year ∈ sYears → arb_df.hasCol ("Arb_Swap_" ++ toString year) = true →
        ∃ tr, (year, tr) ∈ plotFigureTraces arb_df sD eD) ∧
    (∀ (rep_df : DF) (sD eD : Option Date) (year : Nat)
      (ta sa : List (Date × ℚ)),
      (year, ta, sa) ∈ plotSupplementaryCharts rep_df sD eD →
        rep_df.hasCol (gtName year) = true ∧
          rep_df.hasCol (ussoName year) = true) ∧
    (∀ (rep_df : DF) (sD eD : Option Date) (year : Nat),
      year ∈ sYears → rep_df.hasCol (gtName year) = true →
        rep_df.hasCol (ussoName year) = true →
        ∃ ta sa, (year, ta, sa) ∈ plotSupplementaryCharts rep_df sD eD) ∧
    (∀ calc_df : DF, (supTable calc_df).isSome = true ↔
      ∀ year ∈ sYears, calc_df.hasCol (arbName year) = true) := by
  refine ⟨?_, ?_, ?_, ?_, ?_⟩
  · intro arb_df sD eD year tr hmem
    obtain ⟨y, hy, hf⟩ := List.mem_filterMap.mp hmem
    cases hg : arb_df.getCol ("Arb_Swap_" ++ toString y) with
    | none => rw [hg] at hf; exact Option.noConfusion hf
    | some vs =>
      rw [hg] at hf
      have hyear : y = year := congrArg Prod.fst (Option.some.inj hf)
      rw [← hyear, hasCol_eq_isSome, hg]
      rfl
  · intro arb_df sD eD year hy hcol
    rw [hasCol_eq_isSome] at hcol
    cases hg : arb_df.getCol ("Arb_Swap_" ++ toString year) with
    | none => rw [hg] at hcol; exact absurd hcol (by simp)
    | some vs =>
      refine ⟨(sliceSeries (arb_df.index.zip vs) sD eD).filterMap
        (fun p => p.2.map (fun q => (p.1, q))), ?_⟩
      exact List.mem_filterMap.mpr ⟨year, hy, by rw [hg]⟩
  · intro rep_df sD eD year ta sa hmem
    obtain ⟨y, hy, hf⟩ := List.mem_filterMap.mp hmem
    cases hg : rep_df.getCol (gtName y) with
    | none => rw [hg] at hf; exact Option.noConfusion hf
    | some trea =>
      cases hu : rep_df.getCol (ussoName y) with
      | none => rw [hg, hu] at hf; exact Option.noConfusion hf
      | some swap =>
        rw [hg, hu] at hf
        have hyear : y = year := congrArg Prod.fst (Option.some.inj hf)
        constructor
        · rw [← hyear, hasCol_eq_isSome, hg]; rfl
        · rw [← hyear, hasCol_eq_isSome, hu]; rfl
  · intro rep_df sD eD year hy h1 h2
    rw [hasCol_eq_isSome] at h1 h2
    cases hg : rep_df.getCol (gtName year) with
    | none => rw [hg] at h1; exact absurd h1 (by simp)
    | some trea =>
      cases hu : rep_df.getCol (ussoName year) with
      | none => rw [hu] at h2; exact absurd h2 (by simp)
      | some swap =>
        refine ⟨logTrace rep_df.index trea sD eD,
          logTrace rep_df.index swap sD eD, ?_⟩
        exact List.mem_filterMap.mpr ⟨year, hy, by rw [hg, hu]⟩
  · intro calc_df
    have hmapSome : (supTable calc_df).isSome =
        (selectArbCols calc_df sYears).isSome := by
      unfold supTable
      cases selectArbCols calc_df sYears <;> rfl
    rw [hmapSome]
    exact selectArbCols_isSome calc_df sYears

/-- C5, witness: a supplementary chart membership yields the presence of
both source columns, and sup_table succeeds on the full seven-column
table. -/
theorem C5_plots_skip_table_raises_witness :
    (exRepl.hasCol (gtName 10) = true ∧
      exRepl.hasCol (ussoName 10) = true) ∧
    (supTable exFullArb).isSome = true := by
  constructor
  · exact C5_plots_skip_table_raises.2.2.1 exRepl none none 10
      (logTrace exRepl.index [some 2, some 0] none none)
      (logTrace exRepl.index [some 3, none] none none)
      (List.mem_singleton.mpr rfl)
  · exact (C5_plots_skip_table_raises.2.2.2.2 exFullArb).mpr (by decide)

/- ---------------------------------------------------------------------
Claim C7
--------------------------------------------------------------------- -/

/-- C7: the exporter short-circuits exactly when the cached file exists,
reads back, has column set exactly unique_id, ds, y, and is non-empty; an
unreadable existing file behaves exactly as a missing one (the read error
is swallowed and the output regenerated). -/
theorem C7_cache_short_circuit (cache : CacheFile) (df_all : DF) :
    (ftsfrMain cache df_all = ExportOutcome.reusedExisting ↔
      ∃ tb, cache = CacheFile.readable tb ∧
        colSetEq tb.colNames ["unique_id", "ds", "y"] = true ∧
        0 < tb.nrows) ∧
    ftsfrMain CacheFile.unreadable df_all =
      ftsfrMain CacheFile.missing df_all := by
  constructor
  · cases cache with
    | missing =>
      constructor
      · intro h
        exfalso
        unfold ftsfrMain at h
        rw [show validCache CacheFile.missing = false from rfl] at h
        simp only [Bool.false_eq_true, if_false] at h
        split at h <;> exact ExportOutcome.noConfusion h
      · rintro ⟨tb, htb, _⟩
        exact CacheFile.noConfusion htb
    | unreadable =>
      constructor
      · intro h
        exfalso
        unfold ftsfrMain at h
        rw [show validCache CacheFile.unreadable = false from rfl] at h
        simp only [Bool.false_eq_true, if_false] at h
        split at h <;> exact ExportOutcome.noConfusion h
      · rintro ⟨tb, htb, _⟩
        exact CacheFile.noConfusion htb
    | readable tb =>
      unfold ftsfrMain
      rw [show validCache (CacheFile.readable tb) =
        (colSetEq tb.colNames ["unique_id", "ds", "y"] &&
          decide (0 < tb.nrows)) from rfl]
      by_cases hv : (colSetEq tb.colNames ["unique_id", "ds", "y"] &&
          decide (0 < tb.nrows)) = true
      · rw [if_pos hv]
        have hv2 : colSetEq tb.colNames ["unique_id", "ds", "y"] = true ∧
            decide (0 < tb.nrows) = true := by
          rw [← Bool.and_eq_true]
          exact hv
        exact ⟨fun _ => ⟨tb, rfl, hv2.1, of_decide_eq_true hv2.2⟩,
          fun _ => rfl⟩
      · rw [if_neg hv]
        constructor
        · intro h
          exfalso
          split at h <;> exact ExportOutcome.noConfusion h
        · rintro ⟨tb2, htb, hcols, hrows⟩
          exfalso
          injection htb with h2
          subst h2
          exact hv (by
            rw [Bool.and_eq_true]
            exact ⟨hcols, decide_eq_true hrows⟩)
  · rfl

/- ---------------------------------------------------------------------
Claim C8
--------------------------------------------------------------------- -/

/-- The date-window slice only removes points. -/
lemma mem_sliceSeries (xs : List (Date × Option ℚ)) (sD eD : Option Date)
    (p : Date × Option ℚ) (h : p ∈ sliceSeries xs sD eD) : p ∈ xs := by
  unfold sliceSeries at h
  cases sD with
  | none => exact h
  | some s0 =>
    cases eD with
    | none => exact (List.mem_filter.mp h).1
    | some e0 => exact (List.mem_filter.mp h).1

/-- Every point of a log trace carries a strictly positive argument taken
from a strictly positive cell of the series. -/
lemma logTrace_spec (index : List Date) (vs : List (Option ℚ))
    (sD eD : Option Date) (p : Date × ℚ)
    (h : p ∈ logTrace index vs sD eD) :
    0 < p.2 ∧ ∃ q : ℚ, 0 < q ∧ p.2 = 100 * q ∧
      (p.1, some q) ∈ index.zip vs := by
  obtain ⟨a, ha, he⟩ := List.mem_filterMap.mp h
  obtain ⟨dt, v⟩ := a
  cases v with
  | none => exact Option.noConfusion he
  | some q =>
    have he2 : (if 0 < q then some (dt, 100 * q) else none) = some p := he
    by_cases hq : 0 < q
    · rw [if_pos hq] at he2
      have hp : (dt, 100 * q) = p := Option.some.inj he2
      rw [← hp]
      exact ⟨by positivity, q, hq, rfl, mem_sliceSeries _ _ _ _ ha⟩
    · rw [if_neg hq] at he2
      exact Option.noConfusion he2

/-- C8: every point plotted by a per-tenor supplementary chart carries the
argument 100 * rate handed to the logarithm, that argument is strictly
positive, and it stems from a strictly positive non-missing rate cell: a
missing or non-positive cell (such as a zero rate) contributes no point. -/
theorem C8_log_positive_args (replication_df : DF) (sD eD : Option Date)
    (year : Nat) (ta sa : List (Date × ℚ))
    (hmem : (year, ta, sa) ∈
      plotSupplementaryCharts replication_df sD eD) :
    (∀ p ∈ ta, 0 < p.2 ∧ ∃ q : ℚ, 0 < q ∧ p.2 = 100 * q ∧
      ∃ vs, replication_df.getCol (gtName year) = some vs ∧
        (p.1, some q) ∈ replication_df.index.zip vs) ∧
    (∀ p ∈ sa, 0 < p.2 ∧ ∃ q : ℚ, 0 < q ∧ p.2 = 100 * q ∧
      ∃ vs, replication_df.getCol (ussoName year) = some vs ∧
        (p.1, some q) ∈ replication_df.index.zip vs) := by
  obtain ⟨y, hy, hf⟩ := List.mem_filterMap.mp hmem
  cases hg : replication_df.getCol (gtName y) with
  | none => rw [hg] at hf; exact Option.noConfusion hf
  | some trea =>
    cases hu : replication_df.getCol (ussoName y) with
    | none => rw [hg, hu] at hf; exact Option.noConfusion hf
    | some swap =>
      rw [hg, hu] at hf
      have hinj := Option.some.inj hf
      have hyear : y = year := congrArg Prod.fst hinj
      have hta : logTrace replication_df.index trea sD eD = ta :=
        congrArg (fun z => z.2.1) hinj
      have hsa : logTrace replication_df.index swap sD eD = sa :=
        congrArg (fun z => z.2.2) hinj
      subst hyear
      constructor
      · intro p hp
        rw [← hta] at hp
        obtain ⟨hpos, q, hq, he, hz⟩ :=
          logTrace_spec replication_df.index trea sD eD p hp
        exact ⟨hpos, q, hq, he, trea, hg, hz⟩
      · intro p hp
        rw [← hsa] at hp
        obtain ⟨hpos, q, hq, he, hz⟩ :=
          logTrace_spec replication_df.index swap sD eD p hp
        exact ⟨hpos, q, hq, he, swap, hu, hz⟩

/-- C8, witness: on the concrete replication table whose Treasury series
holds 2 percent on the first date and zero on the second, the only plotted
Treasury point carries the positive argument 100 * 2 (the zero-rate date
is excluded). -/
theorem C8_log_positive_args_witness :
    (0 : ℚ) < ((d2024, (100 : ℚ) * 2) : Date × ℚ).2 :=
  ((C8_log_positive_args exRepl none none 10
      (logTrace exRepl.index [some 2, some 0] none none)
      (logTrace exRepl.index [some 3, none] none none)
      (List.mem_singleton.mpr rfl)).1
    (d2024, (100 : ℚ) * 2) (List.mem_singleton.mpr rfl)).1

/- ---------------------------------------------------------------------
Claim C9
--------------------------------------------------------------------- -/

/-- C9: the long-format export is a deterministic function of the wide
input table: two runs on inputs with identical index and columns produce
identical long-format outputs. -/
theorem C9_export_deterministic (df₁ df₂ : DF)
    (hidx : df₁.index = df₂.index) (hcols : df₁.cols = df₂.cols) :
    ftsfrExport df₁ = ftsfrExport df₂ := by
  obtain ⟨i1, c1⟩ := df₁
  obtain ⟨i2, c2⟩ := df₂
  simp only at hidx hcols
  rw [hidx, hcols]

/-- C9, witness: applied to two copies of the concrete wide table. -/
theorem C9_export_deterministic_witness :
    ftsfrExport exWide = ftsfrExport exWide :=
  C9_export_deterministic exWide exWide rfl rfl

end BasisTreasSwap
